import Mathlib

/-!
Verification development for a small 32-bit kernel (`kernel.c`): VGA terminal
driver, keyboard driver, line-editing shell, and interrupt descriptor table
setup.  Machine integers are modelled as `Nat` with explicit `% 2 ^ w` where
truncation matters; the VGA cell buffer and the descriptor table are modelled
as total functions from `Nat`, updated pointwise.
-/

/-- Pointwise update of a function-modelled array: `upd f i v` is `f` with
index `i` remapped to `v`. -/
def upd {α : Type} (f : Nat → α) (i : Nat) (v : α) : Nat → α :=
  fun j => if j = i then v else f j

/-- Embeds `make_color`: `fg | bg << 4`, truncated to a byte. -/
def make_color (fg bg : Nat) : Nat :=
  (fg ||| (bg <<< 4)) % 256

/-- Embeds `make_vgaentry`: `(uint16_t)c | (uint16_t)color << 8`.  The C
`char` is signed on x86, so a byte with the high bit set sign-extends into
the upper half of the 16-bit value before the attribute is or-ed in. -/
def make_vgaentry (c color : Nat) : Nat :=
  let cw := if c % 256 < 128 then c % 256 else (c % 256) + 65280
  (cw ||| ((color % 256) <<< 8)) % 65536

/-- Terminal driver state: cursor, current attribute byte, and the 80 by 25
cell buffer (`vga_buffer`), modelled as a total function on cell indices. -/
structure TermState where
  row : Nat
  col : Nat
  color : Nat
  buffer : Nat → Nat

/-- Embeds the scroll inner loop for one row `y`:
`for x in [0,80): buf[y*80+x] = buf[(y+1)*80+x]`, reading from the buffer as
already updated by earlier iterations, exactly as the C loop does. -/
def scroll_row (y : Nat) (buf : Nat → Nat) : Nat → Nat :=
  (List.range 80).foldl (fun b x => upd b (y * 80 + x) (b ((y + 1) * 80 + x))) buf

/-- Embeds the scroll outer loop: `for y in [0,24): copy row y+1 onto row y`. -/
def scroll_copy (buf : Nat → Nat) : Nat → Nat :=
  (List.range 24).foldl (fun b y => scroll_row y b) buf

/-- Embeds the clear-last-line loop of the newline path:
`for x in [0,80): buf[24*80+x] = make_vgaentry(' ', color)`. -/
def clear_last_row (buf : Nat → Nat) (color : Nat) : Nat → Nat :=
  (List.range 80).foldl (fun b x => upd b (24 * 80 + x) (make_vgaentry 32 color)) buf

/-- Embeds `terminal_putchar`.  Newline: reset `col`, bump `row`, scroll when
the incremented row hits 25 and pin `row` at 24.  Any other character: write
the cell at the cursor, bump `col`, wrap `col` at 80 and then `row` at 25
(without scrolling). -/
def terminal_putchar (s : TermState) (c : Nat) : TermState :=
  if c = 10 then
    if s.row + 1 = 25 then
      { s with col := 0, row := 24,
               buffer := clear_last_row (scroll_copy s.buffer) s.color }
    else
      { s with col := 0, row := s.row + 1 }
  else
    let buf := upd s.buffer (s.row * 80 + s.col) (make_vgaentry c s.color)
    if s.col + 1 = 80 then
      if s.row + 1 = 25 then
        { s with buffer := buf, col := 0, row := 0 }
      else
        { s with buffer := buf, col := 0, row := s.row + 1 }
    else
      { s with buffer := buf, col := s.col + 1 }

/-- Embeds `terminal_writestring`: apply `terminal_putchar` to each character
of the string (modelled as the list of its character codes). -/
def terminal_write_chars (s : TermState) (cs : List Nat) : TermState :=
  cs.foldl terminal_putchar s

/-- Embeds `terminal_initialize`: cursor to the origin, default color
(light green on black), every one of the 2000 cells overwritten with a
space, via the same nested row-major loops as the C code. -/
def terminal_initialize (s : TermState) : TermState :=
  { row := 0, col := 0, color := make_color 10 0,
    buffer := (List.range 25).foldl (fun b y =>
      (List.range 80).foldl
        (fun b2 x => upd b2 (y * 80 + x) (make_vgaentry 32 (make_color 10 0))) b)
      s.buffer }

/-- Embeds `terminal_setcolor`. -/
def terminal_setcolor (s : TermState) (color : Nat) : TermState :=
  { s with color := color }

/-- The cursor invariant of the terminal driver: `row < 25` and `col < 80`. -/
def TermInv (s : TermState) : Prop :=
  s.row < 25 ∧ s.col < 80

/-- The cursor position as a linear cell index, `row * 80 + col`. -/
def linearPos (s : TermState) : Nat :=
  s.row * 80 + s.col

/-- The hex digit table of `terminal_writehex`, the character codes of
`"0123456789ABCDEF"`. -/
def hexTable : List Nat :=
  [48, 49, 50, 51, 52, 53, 54, 55, 56, 57, 65, 66, 67, 68, 69, 70]

/-- The characters `terminal_writehex` passes to `terminal_putchar`: `"0x"`
followed by `hex[(value >> i) & 0xF]` for `i = 28, 24, ..., 0`. -/
def terminal_writehex_output (value : Nat) : List Nat :=
  [48, 120] ++ [28, 24, 20, 16, 12, 8, 4, 0].map (fun i => hexTable.getD (value / 2 ^ i % 16) 0)

/-- Embeds `terminal_writehex`: write `"0x"`, then one `terminal_putchar` per
nibble from bit 28 down to bit 0. -/
def terminal_writehex (s : TermState) (value : Nat) : TermState :=
  [28, 24, 20, 16, 12, 8, 4, 0].foldl
    (fun st i => terminal_putchar st (hexTable.getD (value / 2 ^ i % 16) 0))
    (terminal_write_chars s [48, 120])

/-- Embeds the digit-accumulation loop of `terminal_writedec`: the buffer
contents after the loop, least significant digit first. -/
def decDigitsRev (v : Nat) : List Nat :=
  if h : v = 0 then [] else (48 + v % 10) :: decDigitsRev (v / 10)
decreasing_by exact Nat.div_lt_self (Nat.pos_of_ne_zero h) (by omega)

/-- Embeds `terminal_writedec`: a single `'0'` for zero, otherwise the
accumulated digits emitted in reverse storage order (most significant
first). -/
def terminal_writedec (s : TermState) (value : Nat) : TermState :=
  if value = 0 then terminal_putchar s 48
  else terminal_write_chars s (decDigitsRev value).reverse

/-- The value denoted by one hex digit character. -/
def hexCharVal (d : Nat) : Nat :=
  if d ≤ 57 then d - 48 else d - 55

/-- Decode a big-endian string of hex digit characters. -/
def hexDecode (l : List Nat) : Nat :=
  l.foldl (fun acc d => acc * 16 + hexCharVal d) 0

/-- The buffer indices `terminal_putchar` accesses: the cursor cell for an
ordinary character; for a scrolling newline, the destination and source cell
of every copied position plus the 80 cleared cells of the last row. -/
def terminal_putchar_indices (s : TermState) (c : Nat) : List Nat :=
  if c = 10 then
    if s.row + 1 = 25 then
      ((List.range 24).flatMap fun y =>
        (List.range 80).flatMap fun x => [y * 80 + x, (y + 1) * 80 + x])
        ++ ((List.range 80).map fun x => 24 * 80 + x)
    else []
  else [s.row * 80 + s.col]

/-- The buffer indices written by the clearing loops of `terminal_initialize`. -/
def terminal_initialize_indices : List Nat :=
  (List.range 25).flatMap fun y => (List.range 80).map fun x => y * 80 + x

/-- Embeds the `scancode_map` table of `keyboard_scancode_to_ascii` (US
layout, scan code set 1): 58 entries, 0 for keys with no ASCII mapping. -/
def scancode_map : List Nat :=
  [0, 0, 49, 50, 51, 52, 53, 54, 55, 56, 57, 48, 45, 61, 8,
   9, 113, 119, 101, 114, 116, 121, 117, 105, 111, 112, 91, 93, 10,
   0, 97, 115, 100, 102, 103, 104, 106, 107, 108, 59, 39, 96,
   0, 92, 122, 120, 99, 118, 98, 110, 109, 44, 46, 47, 0,
   42, 0, 32]

/-- Embeds `keyboard_scancode_to_ascii`: table lookup below the table size,
0 otherwise. -/
def keyboard_scancode_to_ascii (scancode : Nat) : Nat :=
  if scancode < scancode_map.length then scancode_map.getD scancode 0 else 0

/-- Embeds `keyboard_read_char` over the stream of data bytes delivered by
the keyboard port: poll until a byte with the key-release bit (0x80) clear
arrives, then translate and return it; release bytes are discarded, and a
stream of only releases polls forever (`none`). -/
def keyboard_read_char : List Nat → Option Nat
  | [] => none
  | s :: rest =>
    if s &&& 128 = 0 then some (keyboard_scancode_to_ascii s)
    else keyboard_read_char rest

/-- Shell line-read state (`kernel_shell` locals): the terminal, the 256-byte
line buffer, and the cursor/length index `pos`. -/
structure ShellState where
  term : TermState
  lineBuf : Nat → Nat
  pos : Nat

/-- Embeds one iteration of the shell's line-read loop for a non-newline
character `c`: backspace with `pos > 0` decrements `pos` and, when the
cursor's column is non-zero, erases the previous cell on screen; a printable
character (32..126) with `pos < 255` is stored and echoed; everything else
is ignored. -/
def shell_key_step (st : ShellState) (c : Nat) : ShellState :=
  if c = 8 ∧ 0 < st.pos then
    if 0 < st.term.col then
      { st with pos := st.pos - 1,
                term := { st.term with
                          col := st.term.col - 1,
                          buffer := upd st.term.buffer
                            (st.term.row * 80 + (st.term.col - 1))
                            (make_vgaentry 32 st.term.color) } }
    else
      { st with pos := st.pos - 1 }
  else if 32 ≤ c ∧ c ≤ 126 ∧ st.pos < 255 then
    { st with lineBuf := upd st.lineBuf st.pos c,
              pos := st.pos + 1,
              term := terminal_putchar st.term c }
  else
    st

/-- Embeds the line-read loop: consume input characters until a newline,
which echoes the newline, terminates the buffer at index `pos`, and exits;
if the input never delivers a newline the loop keeps polling (`none`). -/
def shell_read_line : ShellState → List Nat → Option ShellState
  | _, [] => none
  | st, c :: rest =>
    if c = 10 then
      some { st with term := terminal_putchar st.term 10,
                     lineBuf := upd st.lineBuf st.pos 0 }
    else
      shell_read_line (shell_key_step st c) rest

/-- The intermediate states of the line-read loop: a fold of
`shell_key_step` over an input prefix. -/
def shell_key_steps (st : ShellState) (cs : List Nat) : ShellState :=
  cs.foldl shell_key_step st

/-- Embeds the command-extraction loop of the shell's tokenizer: the
characters before the terminator or the first space, paired with the rest of
the line from that point on. -/
def scan_cmd : List Nat → List Nat × List Nat
  | [] => ([], [])
  | c :: rest =>
    if c ≠ 0 ∧ c ≠ 32 then (c :: (scan_cmd rest).1, (scan_cmd rest).2)
    else ([], c :: rest)

/-- Embeds the space-skipping loop between command and argument. -/
def skip_spaces : List Nat → List Nat
  | [] => []
  | c :: rest => if c = 32 then skip_spaces rest else c :: rest

/-- Embeds the argument-extraction loop: everything up to the terminator. -/
def scan_args : List Nat → List Nat
  | [] => []
  | c :: rest => if c ≠ 0 then c :: scan_args rest else []

/-- Embeds the shell's tokenizer: a command token up to the first space, then
skipped spaces, then the argument token. -/
def parse_line (line : List Nat) : List Nat × List Nat :=
  ((scan_cmd line).1, scan_args (skip_spaces (scan_cmd line).2))

/-- The first character of a C string modelled as a list (0 once exhausted). -/
def c_char : List Nat → Nat
  | [] => 0
  | c :: _ => c

/-- Embeds `str_cmp`: advance while both strings continue and agree, then
return the difference of the first disagreeing characters. -/
def str_cmp : List Nat → List Nat → Int
  | [], s2 => 0 - (c_char s2 : Int)
  | c :: s1, s2 =>
    if c ≠ 0 ∧ c = c_char s2 then str_cmp s1 s2.tail
    else (c : Int) - c_char s2

/-- Character codes of `"help"`. -/
def strHelp : List Nat := [104, 101, 108, 112]

/-- Character codes of `"clear"`. -/
def strClear : List Nat := [99, 108, 101, 97, 114]

/-- Character codes of `"echo"`. -/
def strEcho : List Nat := [101, 99, 104, 111]

/-- Character codes of `"time"`. -/
def strTime : List Nat := [116, 105, 109, 101]

/-- Character codes of `"sysinfo"`. -/
def strSysinfo : List Nat := [115, 121, 115, 105, 110, 102, 111]

/-- Character codes of `"colors"`. -/
def strColors : List Nat := [99, 111, 108, 111, 114, 115]

/-- Character codes of `"box"`. -/
def strBox : List Nat := [98, 111, 120]

/-- Character codes of `"banner"`. -/
def strBanner : List Nat := [98, 97, 110, 110, 101, 114]

/-- Character codes of `"shutdown"`. -/
def strShutdown : List Nat := [115, 104, 117, 116, 100, 111, 119, 110]

/-- The shell's command set, plus `unknown` for the fall-through branch. -/
inductive ShellCmd where
  | help | clear | echo | time | sysinfo | colors | box | banner | shutdown | unknown
deriving DecidableEq

/-- Embeds the dispatch chain of `kernel_shell`: successive `str_cmp`
comparisons against the fixed command names, in source order. -/
def dispatch_select (cmd : List Nat) : ShellCmd :=
  if str_cmp cmd strHelp = 0 then .help
  else if str_cmp cmd strClear = 0 then .clear
  else if str_cmp cmd strEcho = 0 then .echo
  else if str_cmp cmd strTime = 0 then .time
  else if str_cmp cmd strSysinfo = 0 then .sysinfo
  else if str_cmp cmd strColors = 0 then .colors
  else if str_cmp cmd strBox = 0 then .box
  else if str_cmp cmd strBanner = 0 then .banner
  else if str_cmp cmd strShutdown = 0 then .shutdown
  else .unknown

/-- Embeds `cmd_echo`: write the argument string, then a newline. -/
def cmd_echo (s : TermState) (args : List Nat) : TermState :=
  terminal_putchar (terminal_write_chars s args) 10

/-- The completed line as a list: the first `pos` stored characters. -/
def line_of (st : ShellState) : List Nat :=
  (List.range st.pos).map st.lineBuf

/-- Embeds the post-read step of the shell's outer loop: an empty line
(`pos = 0`) re-prompts with no dispatch (`none`); otherwise the line is
tokenized and the selected command receives the argument token. -/
def shell_process (st : ShellState) : Option (ShellCmd × List Nat) :=
  if st.pos = 0 then none
  else some (dispatch_select (parse_line (line_of st)).1, (parse_line (line_of st)).2)

/-- One interrupt gate (`struct idt_entry`), fields as 16- or 8-bit numbers. -/
structure IdtEntry where
  base_low : Nat
  selector : Nat
  always0 : Nat
  flags : Nat
  base_high : Nat
deriving DecidableEq

/-- Embeds `idt_set_gate`: split the handler address into its low and high
16-bit halves and store the selector and flags byte. -/
def idt_set_gate (t : Nat → IdtEntry) (num base sel flags : Nat) : Nat → IdtEntry :=
  upd t num
    { base_low := base % 65536, selector := sel, always0 := 0, flags := flags,
      base_high := base / 65536 % 65536 }

/-- Embeds the table construction of `idt_install` (the `lidt` activation does
not change the table): zero all 256 gates, then wire vectors 0 and 1 to the
`isr0`/`isr1` entry-point addresses with selector 0x08 and flags 0x8E. -/
def idt_install (t0 : Nat → IdtEntry) (isr0 isr1 : Nat) : Nat → IdtEntry :=
  let z := (List.range 256).foldl (fun t i => idt_set_gate t i 0 0 0) t0
  idt_set_gate (idt_set_gate z 0 isr0 8 142) 1 isr1 8 142

/-- A concrete terminal state used by the witnesses. -/
def termW : TermState :=
  { row := 0, col := 0, color := 7, buffer := fun _ => 0 }

/-- A concrete terminal state on the last row, exercising the scroll path. -/
def termS : TermState :=
  { row := 24, col := 3, color := 7, buffer := fun j => j }

/-- A concrete shell state at the start of a line read. -/
def shellW : ShellState :=
  { term := termW, lineBuf := fun _ => 0, pos := 0 }

/-- A concrete shell state in the middle of typing, exercising backspace. -/
def shellB : ShellState :=
  { term := { row := 2, col := 10, color := 15, buffer := fun _ => 0 },
    lineBuf := fun _ => 0, pos := 3 }

theorem upd_apply {α : Type} (f : Nat → α) (i : Nat) (v : α) (j : Nat) :
    upd f i v j = if j = i then v else f j := rfl

theorem fill_range_aux {α : Type} (g : Nat → α) :
    ∀ (n : Nat) (f : Nat → α) (j : Nat),
      ((List.range n).foldl (fun t i => upd t i (g i)) f) j
        = if j < n then g j else f j := by
  intro n
  induction n with
  | zero => intro f j; simp
  | succ n ih =>
    intro f j
    rw [List.range_succ, List.foldl_append, List.foldl_cons, List.foldl_nil, upd_apply]
    simp only [ih]
    split_ifs <;> first | rfl | (congr 1; omega)

theorem putchar_inv (s : TermState) (c : Nat) (h : TermInv s) :
    TermInv (terminal_putchar s c) := by
  obtain ⟨hr, hc⟩ := h
  unfold terminal_putchar TermInv
  split
  · split <;> dsimp only <;> omega
  · split
    · split <;> dsimp only <;> omega
    · dsimp only
      omega

theorem putchar_pos (s : TermState) (c : Nat) (hc : c ≠ 10) (h : TermInv s) :
    linearPos (terminal_putchar s c) = (linearPos s + 1) % 2000 := by
  obtain ⟨hr, hcol⟩ := h
  unfold terminal_putchar linearPos
  rw [if_neg hc]
  split
  · split <;> dsimp only <;> omega
  · dsimp only
    omega

theorem const_fill_aux (v : Nat) (off : Nat) (buf : Nat → Nat) :
    ∀ (n j : Nat),
      ((List.range n).foldl (fun b x => upd b (off + x) v) buf) j
        = if off ≤ j ∧ j < off + n then v else buf j := by
  intro n
  induction n with
  | zero =>
    intro j
    rw [List.range_zero, List.foldl_nil, if_neg (by omega)]
  | succ n ih =>
    intro j
    rw [List.range_succ, List.foldl_append, List.foldl_cons, List.foldl_nil, upd_apply]
    simp only [ih]
    split_ifs <;> first | rfl | (exfalso; omega)

theorem scroll_row_aux (y : Nat) (buf : Nat → Nat) :
    ∀ (n j : Nat),
      ((List.range n).foldl (fun b x => upd b (y * 80 + x) (b ((y + 1) * 80 + x))) buf) j
        = if y * 80 ≤ j ∧ j < y * 80 + n then buf (j + 80) else buf j := by
  intro n
  induction n with
  | zero =>
    intro j
    rw [List.range_zero, List.foldl_nil, if_neg (by omega)]
  | succ n ih =>
    intro j
    rw [List.range_succ, List.foldl_append, List.foldl_cons, List.foldl_nil, upd_apply]
    simp only [ih]
    split_ifs <;> first | rfl | (congr 1; omega)

theorem scroll_row_apply (y : Nat) (buf : Nat → Nat) (j : Nat) :
    scroll_row y buf j = if y * 80 ≤ j ∧ j < y * 80 + 80 then buf (j + 80) else buf j :=
  scroll_row_aux y buf 80 j

theorem scroll_copy_apply (buf : Nat → Nat) :
    ∀ (m j : Nat),
      ((List.range m).foldl (fun b y => scroll_row y b) buf) j
        = if j < m * 80 then buf (j + 80) else buf j := by
  intro m
  induction m with
  | zero => intro j; simp
  | succ m ih =>
    intro j
    rw [List.range_succ, List.foldl_append, List.foldl_cons, List.foldl_nil,
      scroll_row_apply]
    simp only [ih]
    split_ifs <;> first | rfl | (congr 1; omega)

theorem clear_last_row_apply (buf : Nat → Nat) (color : Nat) (j : Nat) :
    clear_last_row buf color j
      = if 24 * 80 ≤ j ∧ j < 24 * 80 + 80 then make_vgaentry 32 color else buf j :=
  const_fill_aux (make_vgaentry 32 color) (24 * 80) buf 80 j

theorem init_fill_apply (v : Nat) (buf : Nat → Nat) :
    ∀ (m j : Nat),
      ((List.range m).foldl (fun b y =>
        (List.range 80).foldl (fun b2 x => upd b2 (y * 80 + x) v) b) buf) j
        = if j < m * 80 then v else buf j := by
  intro m
  induction m with
  | zero => intro j; simp
  | succ m ih =>
    intro j
    rw [@List.range_succ m, List.foldl_append, List.foldl_cons, List.foldl_nil,
      const_fill_aux]
    simp only [ih]
    split_ifs <;> first | rfl | (exfalso; omega)

theorem putchar_cell (s : TermState) (c : Nat) (hc : c ≠ 10) :
    (terminal_putchar s c).buffer (s.row * 80 + s.col) = make_vgaentry c s.color ∧
    ∀ j, j ≠ s.row * 80 + s.col → (terminal_putchar s c).buffer j = s.buffer j := by
  unfold terminal_putchar
  rw [if_neg hc]
  constructor
  · split
    · split <;> dsimp only <;> simp [upd_apply]
    · dsimp only
      simp [upd_apply]
  · intro j hj
    split
    · split <;> dsimp only <;> simp [upd_apply, hj]
    · dsimp only
      simp [upd_apply, hj]

theorem putchar_cursor_advance (s : TermState) (c : Nat) (hc : c ≠ 10) :
    (s.col + 1 < 80 →
      (terminal_putchar s c).col = s.col + 1 ∧ (terminal_putchar s c).row = s.row) ∧
    (s.col + 1 = 80 →
      (terminal_putchar s c).col = 0 ∧
      (s.row + 1 < 25 → (terminal_putchar s c).row = s.row + 1) ∧
      (s.row + 1 = 25 → (terminal_putchar s c).row = 0)) := by
  unfold terminal_putchar
  rw [if_neg hc]
  constructor
  · intro h
    rw [if_neg (by omega : ¬ s.col + 1 = 80)]
    exact ⟨rfl, rfl⟩
  · intro h
    rw [if_pos h]
    split <;> dsimp only <;> omega

theorem write_chars_pos (cs : List Nat) (s : TermState)
    (hc : ∀ c ∈ cs, c ≠ 10) (h : TermInv s) :
    TermInv (terminal_write_chars s cs) ∧
    linearPos (terminal_write_chars s cs) = (linearPos s + cs.length) % 2000 := by
  induction cs generalizing s with
  | nil =>
    refine ⟨h, ?_⟩
    have : linearPos s < 2000 := by
      obtain ⟨hr, hcol⟩ := h
      unfold linearPos
      omega
    simp [terminal_write_chars, Nat.mod_eq_of_lt this]
  | cons c cs ih =>
    have hcne : c ≠ 10 := hc c (List.mem_cons_self c cs)
    have hrest : ∀ x ∈ cs, x ≠ 10 := fun x hx => hc x (List.mem_cons_of_mem c hx)
    have hstep := putchar_pos s c hcne h
    have hinv := putchar_inv s c h
    obtain ⟨ih1, ih2⟩ := ih (terminal_putchar s c) hrest hinv
    refine ⟨ih1, ?_⟩
    unfold terminal_write_chars at ih2 ⊢
    simp only [List.foldl_cons] at ih2 ⊢
    rw [ih2, hstep, Nat.mod_add_mod, List.length_cons]
    ring_nf

theorem write_chars_inv (cs : List Nat) (s : TermState) (h : TermInv s) :
    TermInv (terminal_write_chars s cs) := by
  induction cs generalizing s with
  | nil => exact h
  | cons c cs ih => exact ih (terminal_putchar s c) (putchar_inv s c h)

theorem scroll_copy_at (buf : Nat → Nat) (j : Nat) :
    scroll_copy buf j = if j < 1920 then buf (j + 80) else buf j := by
  show ((List.range 24).foldl (fun b y => scroll_row y b) buf) j = _
  rw [scroll_copy_apply]

theorem writehex_eq (s : TermState) (v : Nat) :
    terminal_writehex s v = terminal_write_chars s (terminal_writehex_output v) := by
  unfold terminal_writehex terminal_writehex_output terminal_write_chars
  rw [List.foldl_append, List.foldl_map]

theorem writehex_inv (s : TermState) (v : Nat) (h : TermInv s) :
    TermInv (terminal_writehex s v) := by
  rw [writehex_eq]
  exact write_chars_inv (terminal_writehex_output v) s h

theorem writedec_inv (s : TermState) (v : Nat) (h : TermInv s) :
    TermInv (terminal_writedec s v) := by
  unfold terminal_writedec
  split
  · exact putchar_inv s 48 h
  · exact write_chars_inv (decDigitsRev v).reverse s h

/-- C1: for a non-newline character, `terminal_putchar` overwrites exactly
the cell at the cursor with that character in the current color, then
advances `col` by 1; when `col` reaches 80 it wraps to 0 and `row` advances;
when `row` then reaches 25 it wraps to 0 without scrolling (no other cell of
the buffer changes).  Consequently, writing exactly 2000 non-newline
characters starting from cursor (0,0) leaves the cursor back at (0,0). -/
theorem C1_putchar_nonnewline (s : TermState) (c : Nat) (hc : c ≠ 10)
    (_hrow : s.row < 25) (_hcol : s.col < 80) :
    ((terminal_putchar s c).buffer (s.row * 80 + s.col) = make_vgaentry c s.color) ∧
    (∀ j, j ≠ s.row * 80 + s.col → (terminal_putchar s c).buffer j = s.buffer j) ∧
    (s.col + 1 < 80 →
      (terminal_putchar s c).col = s.col + 1 ∧ (terminal_putchar s c).row = s.row) ∧
    (s.col + 1 = 80 →
      (terminal_putchar s c).col = 0 ∧
      (s.row + 1 < 25 → (terminal_putchar s c).row = s.row + 1) ∧
      (s.row + 1 = 25 → (terminal_putchar s c).row = 0)) ∧
    (∀ (s0 : TermState) (cs : List Nat), s0.row = 0 → s0.col = 0 →
      cs.length = 2000 → (∀ x ∈ cs, x ≠ 10) →
      (terminal_write_chars s0 cs).row = 0 ∧ (terminal_write_chars s0 cs).col = 0) := by
  refine ⟨(putchar_cell s c hc).1, (putchar_cell s c hc).2,
    (putchar_cursor_advance s c hc).1, (putchar_cursor_advance s c hc).2, ?_⟩
  intro s0 cs h0r h0c hlen hnl
  obtain ⟨⟨hr2, hc2⟩, hpos⟩ := write_chars_pos cs s0 hnl ⟨by omega, by omega⟩
  unfold linearPos at hpos
  rw [h0r, h0c, hlen] at hpos
  constructor <;> omega

/-- Witness for C1 at a concrete state and the character `'A'`. -/
theorem C1_putchar_nonnewline_witness :
    ((65 : Nat) ≠ 10 ∧ termW.row < 25 ∧ termW.col < 80) ∧
    (((terminal_putchar termW 65).buffer (termW.row * 80 + termW.col)
        = make_vgaentry 65 termW.color) ∧
     (∀ j, j ≠ termW.row * 80 + termW.col →
        (terminal_putchar termW 65).buffer j = termW.buffer j) ∧
     (termW.col + 1 < 80 →
       (terminal_putchar termW 65).col = termW.col + 1 ∧
       (terminal_putchar termW 65).row = termW.row) ∧
     (termW.col + 1 = 80 →
       (terminal_putchar termW 65).col = 0 ∧
       (termW.row + 1 < 25 → (terminal_putchar termW 65).row = termW.row + 1) ∧
       (termW.row + 1 = 25 → (terminal_putchar termW 65).row = 0)) ∧
     (∀ (s0 : TermState) (cs : List Nat), s0.row = 0 → s0.col = 0 →
       cs.length = 2000 → (∀ x ∈ cs, x ≠ 10) →
       (terminal_write_chars s0 cs).row = 0 ∧ (terminal_write_chars s0 cs).col = 0)) :=
  ⟨⟨by decide, by decide, by decide⟩,
   C1_putchar_nonnewline termW 65 (by decide) (by decide) (by decide)⟩

/-- C2: `terminal_putchar` on a newline resets `col` to 0 and advances `row`;
when `row` would pass the last row, every row `n < 24` receives the old
contents of row `n + 1`, the last row is filled with spaces in the current
color, `row` is pinned at 24, and no cell outside the grid is touched;
otherwise no cell is written at all. -/
theorem C2_putchar_newline (s : TermState) (_hrow : s.row < 25) :
    ((terminal_putchar s 10).col = 0) ∧
    (s.row + 1 < 25 →
      (terminal_putchar s 10).row = s.row + 1 ∧
      (terminal_putchar s 10).buffer = s.buffer) ∧
    (s.row + 1 = 25 →
      (terminal_putchar s 10).row = 24 ∧
      (∀ n x, n < 24 → x < 80 →
        (terminal_putchar s 10).buffer (n * 80 + x) = s.buffer ((n + 1) * 80 + x)) ∧
      (∀ x, x < 80 →
        (terminal_putchar s 10).buffer (24 * 80 + x) = make_vgaentry 32 s.color) ∧
      (∀ j, 2000 ≤ j → (terminal_putchar s 10).buffer j = s.buffer j)) := by
  unfold terminal_putchar
  rw [if_pos (rfl : (10 : Nat) = 10)]
  split
  next h =>
    dsimp only
    refine ⟨rfl, fun hlt => absurd hlt (by omega), fun _ => ⟨rfl, ?_, ?_, ?_⟩⟩
    · intro n x hn hx
      rw [clear_last_row_apply, if_neg (by omega), scroll_copy_at, if_pos (by omega)]
      congr 1
      omega
    · intro x hx
      rw [clear_last_row_apply, if_pos (by omega)]
    · intro j hj
      rw [clear_last_row_apply, if_neg (by omega), scroll_copy_at, if_neg (by omega)]
  next h =>
    dsimp only
    exact ⟨rfl, fun _ => ⟨rfl, rfl⟩, fun h25 => absurd h25 h⟩

/-- Witness for C2 at a concrete state on the last row (the scroll path). -/
theorem C2_putchar_newline_witness :
    (termS.row < 25) ∧
    (((terminal_putchar termS 10).col = 0) ∧
     (termS.row + 1 < 25 →
       (terminal_putchar termS 10).row = termS.row + 1 ∧
       (terminal_putchar termS 10).buffer = termS.buffer) ∧
     (termS.row + 1 = 25 →
       (terminal_putchar termS 10).row = 24 ∧
       (∀ n x, n < 24 → x < 80 →
         (terminal_putchar termS 10).buffer (n * 80 + x)
           = termS.buffer ((n + 1) * 80 + x)) ∧
       (∀ x, x < 80 →
         (terminal_putchar termS 10).buffer (24 * 80 + x) = make_vgaentry 32 termS.color) ∧
       (∀ j, 2000 ≤ j → (terminal_putchar termS 10).buffer j = termS.buffer j))) :=
  ⟨by decide, C2_putchar_newline termS (by decide)⟩

/-- C3: the cursor invariant `row < 25 ∧ col < 80` holds after
`terminal_initialize` and is preserved, with no failure outcome, by every
terminal operation: `terminal_setcolor`, `terminal_putchar` on any
character, `terminal_write_chars` (the `terminal_writestring` effect),
`terminal_writehex`, and `terminal_writedec`. -/
theorem C3_cursor_invariant (s : TermState) (c color v : Nat) (cs : List Nat)
    (h : TermInv s) :
    TermInv ( terminal_initialize s) ∧
    TermInv (terminal_setcolor s color) ∧
    TermInv (terminal_putchar s c) ∧
    TermInv (terminal_write_chars s cs) ∧
    TermInv (terminal_writehex s v) ∧
    TermInv (terminal_writedec s v) :=
  ⟨⟨by simp [ terminal_initialize], by simp [ terminal_initialize]⟩, h,
   putchar_inv s c h, write_chars_inv cs s h,
   writehex_inv s v h, writedec_inv s v h⟩

/-- Witness for C3 at a concrete state, character, color and value. -/
theorem C3_cursor_invariant_witness :
    TermInv termW ∧
    (TermInv ( terminal_initialize termW) ∧
     TermInv (terminal_setcolor termW 7) ∧
     TermInv (terminal_putchar termW 65) ∧
     TermInv (terminal_write_chars termW [65, 10]) ∧
     TermInv (terminal_writehex termW 255) ∧
     TermInv (terminal_writedec termW 255)) :=
  ⟨⟨by decide, by decide⟩, C3_cursor_invariant termW 65 7 255 [65, 10] ⟨by decide, by decide⟩⟩

theorem hexdigit_range : ∀ n < 16,
    (48 ≤ hexTable.getD n 0 ∧ hexTable.getD n 0 ≤ 57) ∨
    (65 ≤ hexTable.getD n 0 ∧ hexTable.getD n 0 ≤ 70) := by decide

theorem hexval_inv : ∀ n < 16, hexCharVal (hexTable.getD n 0) = n := by decide

/-- C9: `terminal_writehex` emits exactly the two characters `"0x"` followed
by exactly 8 hexadecimal digit characters (each a decimal digit or an
uppercase letter A..F), zero-padded and most significant nibble first — the
8 digits decode back to the written 32-bit value — and in particular the
output for 255 is `"0x000000FF"`. -/
theorem C9_writehex_format (v : Nat) (hv : v < 2 ^ 32) :
    (∀ s, terminal_writehex s v = terminal_write_chars s (terminal_writehex_output v)) ∧
    (terminal_writehex_output v).length = 10 ∧
    (terminal_writehex_output v).take 2 = [48, 120] ∧
    (∀ d ∈ (terminal_writehex_output v).drop 2,
      (48 ≤ d ∧ d ≤ 57) ∨ (65 ≤ d ∧ d ≤ 70)) ∧
    hexDecode ((terminal_writehex_output v).drop 2) = v ∧
    terminal_writehex_output 255 = [48, 120, 48, 48, 48, 48, 48, 48, 70, 70] := by
  refine ⟨fun s => writehex_eq s v, by simp [terminal_writehex_output],
    by simp [terminal_writehex_output], ?_, ?_, by decide⟩
  · intro d hd
    simp only [terminal_writehex_output, List.map_cons, List.map_nil, List.cons_append,
      List.nil_append, List.drop_succ_cons, List.drop_zero, List.mem_cons,
      List.not_mem_nil, or_false] at hd
    rcases hd with rfl | rfl | rfl | rfl | rfl | rfl | rfl | rfl <;>
      exact hexdigit_range _ (Nat.mod_lt _ (by norm_num))
  · have h28 := hexval_inv (v / 2 ^ 28 % 16) (Nat.mod_lt _ (by norm_num))
    have h24 := hexval_inv (v / 2 ^ 24 % 16) (Nat.mod_lt _ (by norm_num))
    have h20 := hexval_inv (v / 2 ^ 20 % 16) (Nat.mod_lt _ (by norm_num))
    have h16 := hexval_inv (v / 2 ^ 16 % 16) (Nat.mod_lt _ (by norm_num))
    have h12 := hexval_inv (v / 2 ^ 12 % 16) (Nat.mod_lt _ (by norm_num))
    have h8 := hexval_inv (v / 2 ^ 8 % 16) (Nat.mod_lt _ (by norm_num))
    have h4 := hexval_inv (v / 2 ^ 4 % 16) (Nat.mod_lt _ (by norm_num))
    have h0 := hexval_inv (v / 2 ^ 0 % 16) (Nat.mod_lt _ (by norm_num))
    simp only [terminal_writehex_output, List.map_cons, List.map_nil, List.cons_append,
      List.nil_append, List.drop_succ_cons, List.drop_zero,
      hexDecode, List.foldl_cons, List.foldl_nil]
    rw [h28, h24, h20, h16, h12, h8, h4, h0]
    have e : (2:Nat) ^ 28 = 268435456 ∧ (2:Nat) ^ 24 = 16777216 ∧ (2:Nat) ^ 20 = 1048576 ∧
        (2:Nat) ^ 16 = 65536 ∧ (2:Nat) ^ 12 = 4096 ∧ (2:Nat) ^ 8 = 256 ∧ (2:Nat) ^ 4 = 16 ∧
        (2:Nat) ^ 0 = 1 ∧ (2:Nat) ^ 32 = 4294967296 := by norm_num
    obtain ⟨e28, e24, e20, e16, e12, e8, e4, e0, e32⟩ := e
    rw [e28, e24, e20, e16, e12, e8, e4, e0]
    rw [e32] at hv
    clear h28 h24 h20 h16 h12 h8 h4 h0
    omega

/-- Witness for C9 at the value 255 from the spec's example. -/
theorem C9_writehex_format_witness :
    ((255 : Nat) < 2 ^ 32) ∧
    ((∀ s, terminal_writehex s 255 = terminal_write_chars s (terminal_writehex_output 255)) ∧
     (terminal_writehex_output 255).length = 10 ∧
     (terminal_writehex_output 255).take 2 = [48, 120] ∧
     (∀ d ∈ (terminal_writehex_output 255).drop 2,
       (48 ≤ d ∧ d ≤ 57) ∨ (65 ≤ d ∧ d ≤ 70)) ∧
     hexDecode ((terminal_writehex_output 255).drop 2) = 255 ∧
     terminal_writehex_output 255 = [48, 120, 48, 48, 48, 48, 48, 48, 70, 70]) :=
  ⟨by norm_num, C9_writehex_format 255 (by norm_num)⟩

/-- C10: under the cursor invariant, every buffer index computed by the
terminal operations — the cell write of `terminal_putchar`, the scroll
copy's reads and writes, the last-row clear, and the full clear of
`terminal_initialize` — is strictly below 2000, the cell count of the 80
by 25 grid. -/
theorem C10_indices_in_bounds (s : TermState) (c : Nat)
    (hrow : s.row < 25) (hcol : s.col < 80) :
    (∀ i ∈ terminal_putchar_indices s c, i < 2000) ∧
    (∀ i ∈ terminal_initialize_indices, i < 2000) := by
  constructor
  · intro i hi
    unfold terminal_putchar_indices at hi
    split at hi
    · split at hi
      · simp only [List.mem_append, List.mem_flatMap, List.mem_range, List.mem_map,
          List.mem_cons, List.not_mem_nil, or_false] at hi
        rcases hi with ⟨y, hy, x, hx, rfl | rfl⟩ | ⟨x, hx, rfl⟩ <;> omega
      · simp at hi
    · simp only [List.mem_singleton] at hi
      omega
  · intro i hi
    unfold terminal_initialize_indices at hi
    simp only [List.mem_flatMap, List.mem_range, List.mem_map] at hi
    obtain ⟨y, hy, x, hx, rfl⟩ := hi
    omega

/-- Witness for C10 at a concrete state and the newline character (the
scroll path, where all the copy and clear indices arise). -/
theorem C10_indices_in_bounds_witness :
    (termS.row < 25 ∧ termS.col < 80) ∧
    ((∀ i ∈ terminal_putchar_indices termS 10, i < 2000) ∧
     (∀ i ∈ terminal_initialize_indices, i < 2000)) :=
  ⟨⟨by decide, by decide⟩, C10_indices_in_bounds termS 10 (by decide) (by decide)⟩

theorem zero_gate_fold (t0 : Nat → IdtEntry) (j : Nat) :
    ((List.range 256).foldl (fun t i => idt_set_gate t i 0 0 0) t0) j
      = if j < 256 then ⟨0, 0, 0, 0, 0⟩ else t0 j := by
  have h : (fun (t : Nat → IdtEntry) i => idt_set_gate t i 0 0 0)
      = fun (t : Nat → IdtEntry) i =>
          upd t i ((fun _ : Nat => (⟨0, 0, 0, 0, 0⟩ : IdtEntry)) i) := by
    funext t i
    simp [idt_set_gate]
  rw [h, fill_range_aux]

theorem idt_install_apply (t0 : Nat → IdtEntry) (a0 a1 : Nat) (j : Nat) :
    idt_install t0 a0 a1 j
      = if j = 1 then ⟨a1 % 65536, 8, 0, 142, a1 / 65536 % 65536⟩
        else if j = 0 then ⟨a0 % 65536, 8, 0, 142, a0 / 65536 % 65536⟩
        else if j < 256 then ⟨0, 0, 0, 0, 0⟩ else t0 j := by
  simp only [idt_install]
  rw [show ((List.range 256).foldl (fun t i => idt_set_gate t i 0 0 0) t0)
      = (fun j => if j < 256 then (⟨0, 0, 0, 0, 0⟩ : IdtEntry) else t0 j) from
      funext (zero_gate_fold t0)]
  simp only [idt_set_gate, upd_apply]

/-- C8: after `idt_install`, every gate with index 2 through 255 is all-zero
(not present); gates 0 and 1 hold the `isr0`/`isr1` handler addresses split
into their 16-bit halves (non-zero as a whole whenever the handler symbols
have non-zero addresses), with the fixed code-segment selector 0x08 and the
fixed flags byte 0x8E. -/
theorem C8_idt_install (t0 : Nat → IdtEntry) (a0 a1 : Nat)
    (h0 : a0 < 2 ^ 32) (h1 : a1 < 2 ^ 32) (hn0 : a0 ≠ 0) (hn1 : a1 ≠ 0) :
    (∀ i, 2 ≤ i → i ≤ 255 → idt_install t0 a0 a1 i = ⟨0, 0, 0, 0, 0⟩) ∧
    (idt_install t0 a0 a1 0 = ⟨a0 % 65536, 8, 0, 142, a0 / 65536 % 65536⟩) ∧
    (idt_install t0 a0 a1 1 = ⟨a1 % 65536, 8, 0, 142, a1 / 65536 % 65536⟩) ∧
    ((idt_install t0 a0 a1 0).base_low
      + (idt_install t0 a0 a1 0).base_high * 65536 = a0) ∧
    ((idt_install t0 a0 a1 1).base_low
      + (idt_install t0 a0 a1 1).base_high * 65536 = a1) ∧
    ¬((idt_install t0 a0 a1 0).base_low = 0 ∧
      (idt_install t0 a0 a1 0).base_high = 0) ∧
    ¬((idt_install t0 a0 a1 1).base_low = 0 ∧
      (idt_install t0 a0 a1 1).base_high = 0) := by
  have e32 : (2 : Nat) ^ 32 = 4294967296 := by norm_num
  rw [e32] at h0 h1
  have g0 : idt_install t0 a0 a1 0 = ⟨a0 % 65536, 8, 0, 142, a0 / 65536 % 65536⟩ := by
    rw [idt_install_apply, if_neg (by omega), if_pos rfl]
  have g1 : idt_install t0 a0 a1 1 = ⟨a1 % 65536, 8, 0, 142, a1 / 65536 % 65536⟩ := by
    rw [idt_install_apply, if_pos rfl]
  refine ⟨?_, g0, g1, ?_, ?_, ?_, ?_⟩
  · intro i h2 h255
    rw [idt_install_apply, if_neg (by omega), if_neg (by omega), if_pos (by omega)]
  · rw [g0]
    dsimp only
    omega
  · rw [g1]
    dsimp only
    omega
  · rw [g0]
    dsimp only
    intro hz
    omega
  · rw [g1]
    dsimp only
    intro hz
    omega

/-- Witness for C8 at concrete handler addresses. -/
theorem C8_idt_install_witness :
    ((4660 : Nat) < 2 ^ 32 ∧ (90000 : Nat) < 2 ^ 32 ∧
     (4660 : Nat) ≠ 0 ∧ (90000 : Nat) ≠ 0) ∧
    ((∀ i, 2 ≤ i → i ≤ 255 →
        idt_install (fun _ => ⟨0, 0, 0, 0, 0⟩) 4660 90000 i = ⟨0, 0, 0, 0, 0⟩) ∧
     (idt_install (fun _ => ⟨0, 0, 0, 0, 0⟩) 4660 90000 0
        = ⟨4660 % 65536, 8, 0, 142, 4660 / 65536 % 65536⟩) ∧
     (idt_install (fun _ => ⟨0, 0, 0, 0, 0⟩) 4660 90000 1
        = ⟨90000 % 65536, 8, 0, 142, 90000 / 65536 % 65536⟩) ∧
     ((idt_install (fun _ => ⟨0, 0, 0, 0, 0⟩) 4660 90000 0).base_low
        + (idt_install (fun _ => ⟨0, 0, 0, 0, 0⟩) 4660 90000 0).base_high * 65536 = 4660) ∧
     ((idt_install (fun _ => ⟨0, 0, 0, 0, 0⟩) 4660 90000 1).base_low
        + (idt_install (fun _ => ⟨0, 0, 0, 0, 0⟩) 4660 90000 1).base_high * 65536 = 90000) ∧
     ¬((idt_install (fun _ => ⟨0, 0, 0, 0, 0⟩) 4660 90000 0).base_low = 0 ∧
       (idt_install (fun _ => ⟨0, 0, 0, 0, 0⟩) 4660 90000 0).base_high = 0) ∧
     ¬((idt_install (fun _ => ⟨0, 0, 0, 0, 0⟩) 4660 90000 1).base_low = 0 ∧
       (idt_install (fun _ => ⟨0, 0, 0, 0, 0⟩) 4660 90000 1).base_high = 0)) :=
  ⟨⟨by norm_num, by norm_num, by norm_num, by norm_num⟩,
   C8_idt_install (fun _ => ⟨0, 0, 0, 0, 0⟩) 4660 90000
     (by norm_num) (by norm_num) (by norm_num) (by norm_num)⟩

/-- Counterexample to C4 as stated: the Escape key press is the single byte
scan code 1 (high bit clear, so it is not discarded as a release), and
`keyboard_read_char` returns for it exactly the null result 0 that
`keyboard_scancode_to_ascii` yields for keys with no ASCII mapping. -/
theorem C4_readchar_counterexample :
    (1 : Nat) &&& 128 = 0 ∧
    keyboard_scancode_to_ascii 1 = 0 ∧
    keyboard_read_char [1] = some 0 :=
  ⟨by decide, by decide, by decide⟩

/-- C4 (amended): `keyboard_read_char` returns a character exactly when the
scan-code stream contains a key-press code (high bit clear); the returned
value is `keyboard_scancode_to_ascii` of the first such code, all earlier
key-release codes (high bit set) having been silently discarded — but the
returned value is the null character 0 whenever that first press code has no
ASCII mapping. -/
theorem C4_readchar_first_press (stream : List Nat) (c : Nat) :
    keyboard_read_char stream = some c ↔
      ∃ pre s post, stream = pre ++ s :: post ∧
        (∀ r ∈ pre, r &&& 128 ≠ 0) ∧ s &&& 128 = 0 ∧
        c = keyboard_scancode_to_ascii s := by
  induction stream with
  | nil =>
    constructor
    · intro h
      exact absurd h (by simp [keyboard_read_char])
    · rintro ⟨pre, s, post, habs, -⟩
      exact absurd habs (by simp)
  | cons b rest ih =>
    by_cases hb : b &&& 128 = 0
    · simp only [keyboard_read_char, if_pos hb, Option.some_inj]
      constructor
      · intro h
        exact ⟨[], b, rest, rfl, by simp, hb, h.symm⟩
      · rintro ⟨pre, s, post, heq, hpre, hs, hc⟩
        cases pre with
        | nil =>
          simp only [List.nil_append, List.cons.injEq] at heq
          obtain ⟨rfl, rfl⟩ := heq
          exact hc.symm
        | cons p pre2 =>
          simp only [List.cons_append, List.cons.injEq] at heq
          obtain ⟨rfl, -⟩ := heq
          exact absurd hb (hpre b (List.mem_cons_self b pre2))
    · simp only [keyboard_read_char, if_neg hb]
      rw [ih]
      constructor
      · rintro ⟨pre, s, post, heq, hpre, hs, hc⟩
        refine ⟨b :: pre, s, post, by rw [heq, List.cons_append], ?_, hs, hc⟩
        intro r hr
        rcases List.mem_cons.mp hr with rfl | hr2
        · exact hb
        · exact hpre r hr2
      · rintro ⟨pre, s, post, heq, hpre, hs, hc⟩
        cases pre with
        | nil =>
          simp only [List.nil_append, List.cons.injEq] at heq
          obtain ⟨rfl, rfl⟩ := heq
          exact absurd hs hb
        | cons p pre2 =>
          simp only [List.cons_append, List.cons.injEq] at heq
          obtain ⟨rfl, hrest⟩ := heq
          exact ⟨pre2, s, post, hrest,
            fun r hr => hpre r (List.mem_cons_of_mem b hr), hs, hc⟩

/-- Witness for C4: a release byte (0x81) followed by the press of the `'1'`
key (scan code 2) makes `keyboard_read_char` return that key's character. -/
theorem C4_readchar_first_press_witness :
    keyboard_read_char [129, 2] = some (keyboard_scancode_to_ascii 2) :=
  (C4_readchar_first_press [129, 2] (keyboard_scancode_to_ascii 2)).mpr
    ⟨[129], 2, [], rfl, by decide, by decide, rfl⟩

theorem shell_step_pos (st : ShellState) (c : Nat) :
    (shell_key_step st c).pos
      = if c = 8 ∧ 0 < st.pos then st.pos - 1
        else if 32 ≤ c ∧ c ≤ 126 ∧ st.pos < 255 then st.pos + 1 else st.pos := by
  unfold shell_key_step
  split
  next h =>
    split <;> rfl
  next h =>
    split
    next h2 => rfl
    next h2 => rfl

theorem shell_steps_pos_le (cs : List Nat) (st : ShellState) (h : st.pos ≤ 255) :
    (shell_key_steps st cs).pos ≤ 255 := by
  induction cs generalizing st with
  | nil => exact h
  | cons c cs ih =>
    apply ih
    rw [shell_step_pos]
    split_ifs <;> omega

theorem shell_steps_snoc (st : ShellState) (cs : List Nat) (c : Nat) :
    shell_key_steps st (cs ++ [c]) = shell_key_step (shell_key_steps st cs) c := by
  simp [shell_key_steps, List.foldl_append]

theorem shell_fill_pos (n : Nat) (hn : n ≤ 255) :
    (shell_key_steps shellW (List.replicate n 97)).pos = n := by
  induction n with
  | zero => rfl
  | succ n ih =>
    rw [List.replicate_succ', shell_steps_snoc, shell_step_pos,
      if_neg (by omega), if_pos ⟨by omega, by omega, by rw [ih (by omega)]; omega⟩,
      ih (by omega)]

/-- Counterexample to C5 as stated: typing 255 printable characters is
allowed by the `pos < 255` append guard, and afterwards `pos` equals 255, so
`pos < 255` does not hold at every step of a line read. -/
theorem C5_pos_counterexample :
    (shell_key_steps shellW (List.replicate 255 97)).pos = 255 ∧
    ¬ (shell_key_steps shellW (List.replicate 255 97)).pos < 255 := by
  rw [shell_fill_pos 255 (by omega)]
  omega

/-- C5 (amended): during a line read `pos` satisfies `0 ≤ pos ≤ 255` at
every step — it starts at 0, every step keeps it at most 255, it is
decremented (by exactly 1) only when positive, and it is incremented (by
exactly 1, appending a printable character at index `pos`) only while
`pos < 255`, so the stored characters occupy only slots 0..254 and slot 255
of the 256-byte buffer is written only by the terminator. -/
theorem C5_pos_bound (st : ShellState) (c : Nat) (cs : List Nat)
    (h : st.pos ≤ 255) :
    shellW.pos = 0 ∧
    (shell_key_steps st cs).pos ≤ 255 ∧
    ((shell_key_step st c).pos < st.pos →
      0 < st.pos ∧ (shell_key_step st c).pos = st.pos - 1) ∧
    (st.pos < (shell_key_step st c).pos →
      st.pos < 255 ∧ (shell_key_step st c).pos = st.pos + 1) := by
  refine ⟨rfl, shell_steps_pos_le cs st h, ?_, ?_⟩ <;>
    rw [shell_step_pos] <;> split_ifs <;> omega

/-- Witness for C5 (amended) at a concrete mid-line state. -/
theorem C5_pos_bound_witness :
    shellB.pos ≤ 255 ∧
    (shellW.pos = 0 ∧
     (shell_key_steps shellB [97, 98]).pos ≤ 255 ∧
     ((shell_key_step shellB 8).pos < shellB.pos →
       0 < shellB.pos ∧ (shell_key_step shellB 8).pos = shellB.pos - 1) ∧
     (shellB.pos < (shell_key_step shellB 8).pos →
       shellB.pos < 255 ∧ (shell_key_step shellB 8).pos = shellB.pos + 1)) :=
  ⟨by decide, C5_pos_bound shellB 8 [97, 98] (by decide)⟩

/-- C7: in the line-read loop, backspace with `pos > 0` decrements `pos` by
exactly 1 and leaves the line buffer unchanged; only when the cursor's
column is non-zero it also moves the cursor back one cell (same row, same
color) and overwrites that cell with a space in the current color, touching
no other cell; with column 0 the terminal is untouched; and backspace with
`pos = 0` is a complete no-op. -/
theorem C7_backspace (st : ShellState) :
    (0 < st.pos →
      (shell_key_step st 8).pos = st.pos - 1 ∧
      (shell_key_step st 8).lineBuf = st.lineBuf ∧
      (0 < st.term.col →
        (shell_key_step st 8).term.col = st.term.col - 1 ∧
        (shell_key_step st 8).term.row = st.term.row ∧
        (shell_key_step st 8).term.color = st.term.color ∧
        (shell_key_step st 8).term.buffer (st.term.row * 80 + (st.term.col - 1))
          = make_vgaentry 32 st.term.color ∧
        (∀ j, j ≠ st.term.row * 80 + (st.term.col - 1) →
          (shell_key_step st 8).term.buffer j = st.term.buffer j)) ∧
      (st.term.col = 0 → (shell_key_step st 8).term = st.term)) ∧
    (st.pos = 0 → shell_key_step st 8 = st) := by
  constructor
  · intro hpos
    unfold shell_key_step
    rw [if_pos ⟨rfl, hpos⟩]
    split
    next hcol =>
      refine ⟨rfl, rfl, fun _ => ⟨rfl, rfl, rfl, ?_, ?_⟩, fun hc0 => absurd hcol (by omega)⟩
      · dsimp only
        rw [upd_apply, if_pos rfl]
      · intro j hj
        dsimp only
        rw [upd_apply, if_neg hj]
    next hcol =>
      exact ⟨rfl, rfl, fun hc => absurd hc hcol, fun _ => rfl⟩
  · intro hpos
    unfold shell_key_step
    rw [if_neg (by omega), if_neg (by omega)]

/-- Witness for C7 at a concrete mid-line state with a non-zero column. -/
theorem C7_backspace_witness :
    ((0 < shellB.pos →
      (shell_key_step shellB 8).pos = shellB.pos - 1 ∧
      (shell_key_step shellB 8).lineBuf = shellB.lineBuf ∧
      (0 < shellB.term.col →
        (shell_key_step shellB 8).term.col = shellB.term.col - 1 ∧
        (shell_key_step shellB 8).term.row = shellB.term.row ∧
        (shell_key_step shellB 8).term.color = shellB.term.color ∧
        (shell_key_step shellB 8).term.buffer
            (shellB.term.row * 80 + (shellB.term.col - 1))
          = make_vgaentry 32 shellB.term.color ∧
        (∀ j, j ≠ shellB.term.row * 80 + (shellB.term.col - 1) →
          (shell_key_step shellB 8).term.buffer j = shellB.term.buffer j)) ∧
      (shellB.term.col = 0 → (shell_key_step shellB 8).term = shellB.term)) ∧
     (shellB.pos = 0 → shell_key_step shellB 8 = shellB)) :=
  C7_backspace shellB

theorem scan_cmd_eq (line : List Nat) (h : ∀ x ∈ line, x ≠ 0) :
    scan_cmd line
      = (line.takeWhile (fun x => x != 32), line.dropWhile (fun x => x != 32)) := by
  induction line with
  | nil => rfl
  | cons c rest ih =>
    have hc : c ≠ 0 := h c (List.mem_cons_self c rest)
    have hrest : ∀ x ∈ rest, x ≠ 0 := fun x hx => h x (List.mem_cons_of_mem c hx)
    unfold scan_cmd
    by_cases h32 : c = 32
    · rw [if_neg (by tauto)]
      subst h32
      simp [List.takeWhile_cons, List.dropWhile_cons]
    · rw [if_pos ⟨hc, h32⟩, ih hrest]
      simp [List.takeWhile_cons, List.dropWhile_cons, h32]

theorem skip_spaces_eq (l : List Nat) :
    skip_spaces l = l.dropWhile (fun x => x == 32) := by
  induction l with
  | nil => rfl
  | cons c rest ih =>
    unfold skip_spaces
    by_cases h : c = 32
    · subst h
      rw [if_pos rfl, ih]
      simp [List.dropWhile_cons]
    · rw [if_neg h]
      simp [List.dropWhile_cons, h]

theorem scan_args_eq (l : List Nat) (h : ∀ x ∈ l, x ≠ 0) : scan_args l = l := by
  induction l with
  | nil => rfl
  | cons c rest ih =>
    unfold scan_args
    rw [if_pos (h c (List.mem_cons_self c rest)),
      ih (fun x hx => h x (List.mem_cons_of_mem c hx))]

theorem parse_line_eq (line : List Nat) (h : ∀ x ∈ line, x ≠ 0) :
    parse_line line
      = (line.takeWhile (fun x => x != 32),
         (line.dropWhile (fun x => x != 32)).dropWhile (fun x => x == 32)) := by
  unfold parse_line
  rw [scan_cmd_eq line h]
  dsimp only
  rw [skip_spaces_eq, scan_args_eq]
  intro x hx
  exact h x ((List.dropWhile_sublist _).subset ((List.dropWhile_sublist _).subset hx))

set_option maxRecDepth 4000 in
/-- C6: on a completed line with no embedded terminator the tokenizer yields
the command token (the characters before the first space) and the argument
token (everything after the first run of spaces); `cmd_echo`'s terminal
effect is exactly its argument text followed by a newline; typing
`"echo hello world"` then newline stores that line and dispatches the `echo`
command with argument `"hello world"`; and an empty line (just a newline)
produces no dispatch. -/
theorem C6_tokenize_dispatch (line : List Nat) (h : ∀ x ∈ line, x ≠ 0) :
    (parse_line line
      = (line.takeWhile (fun x => x != 32),
         (line.dropWhile (fun x => x != 32)).dropWhile (fun x => x == 32))) ∧
    (∀ (t : TermState) (args : List Nat),
      cmd_echo t args = terminal_write_chars t (args ++ [10])) ∧
    ((shell_read_line shellW
        [101, 99, 104, 111, 32, 104, 101, 108, 108, 111, 32,
         119, 111, 114, 108, 100, 10]).map
        (fun st => (shell_process st, line_of st))
      = some (some (ShellCmd.echo,
                    [104, 101, 108, 108, 111, 32, 119, 111, 114, 108, 100]),
              [101, 99, 104, 111, 32, 104, 101, 108, 108, 111, 32,
               119, 111, 114, 108, 100])) ∧
    ((shell_read_line shellW [10]).map (fun st => shell_process st) = some none) := by
  refine ⟨parse_line_eq line h, ?_, by decide, by decide⟩
  intro t args
  simp [cmd_echo, terminal_write_chars, List.foldl_append]

set_option maxRecDepth 4000 in
/-- Witness for C6 at the spec's `"echo hello world"` line. -/
theorem C6_tokenize_dispatch_witness :
    (∀ x ∈ ([101, 99, 104, 111, 32, 104, 101, 108, 108, 111, 32,
             119, 111, 114, 108, 100] : List Nat), x ≠ 0) ∧
    ((parse_line [101, 99, 104, 111, 32, 104, 101, 108, 108, 111, 32,
                  119, 111, 114, 108, 100]
      = (([101, 99, 104, 111, 32, 104, 101, 108, 108, 111, 32,
           119, 111, 114, 108, 100] : List Nat).takeWhile (fun x => x != 32),
         (([101, 99, 104, 111, 32, 104, 101, 108, 108, 111, 32,
            119, 111, 114, 108, 100] : List Nat).dropWhile
              (fun x => x != 32)).dropWhile (fun x => x == 32))) ∧
     (∀ (t : TermState) (args : List Nat),
       cmd_echo t args = terminal_write_chars t (args ++ [10])) ∧
     ((shell_read_line shellW
         [101, 99, 104, 111, 32, 104, 101, 108, 108, 111, 32,
          119, 111, 114, 108, 100, 10]).map
         (fun st => (shell_process st, line_of st))
       = some (some (ShellCmd.echo,
                     [104, 101, 108, 108, 111, 32, 119, 111, 114, 108, 100]),
               [101, 99, 104, 111, 32, 104, 101, 108, 108, 111, 32,
                119, 111, 114, 108, 100])) ∧
     ((shell_read_line shellW [10]).map (fun st => shell_process st) = some none)) :=
  ⟨by decide,
   C6_tokenize_dispatch
     [101, 99, 104, 111, 32, 104, 101, 108, 108, 111, 32, 119, 111, 114, 108, 100]
     (by decide)⟩
